import Mathlib

/-!
Verification development for the Hermione arborescence-to-PDF tool
(single source file `src/app.py`).

The development shallowly embeds the tree-processing core of the program:
node model, title resolution (`node_title`), tree loading
(`load_all_trees`), course detection (`has_any_course`), subject/course
extraction (`collect_matieres_and_courses`), the per-faculty section
assembly of `build_pdf`, and the faculty filter of the main block.

Modelling conventions, stated once here:

* A JSON tree node is modelled by `Node`.  Per the data model (spec §3)
  `children` is an ordered sequence or absent, so it is
  `Option (List Node)`; the defensive branch of `ensure_list` that wraps
  a non-list scalar into a one-element list is outside the modelled
  input shapes.  `title`, nested `data.name` and `id` are optional
  strings (a numeric id is represented by its decimal string, matching
  the f-string rendering); `isFolder` is the Python truthiness
  `bool(n.get("isFolder", False))` collapsed to `Bool`.
* Python worklist loops are modelled as recursive functions on the
  worklist.  Python pushes and pops at the END of a list; we keep the
  stack top at the HEAD, so a Python `stack.extend(children)` followed
  by `pop()` becomes pushing `children.reverse` at the head, and the
  FIFO `pop(0)` of the outer loop of `collect_matieres_and_courses`
  becomes head-pop with append at the tail.  The sequence of processed
  values is identical to the source loops.
* CRUCIAL mutation fact of the source: `ensure_list` (line 35) returns
  the argument list object itself, so in `collect_matieres_and_courses`
  the worklist ALIASES the faculty node field `children`, and the loop
  (`stack.pop(0)` / `stack.extend`) drains that list in place: after the
  call the faculty field `children` is the empty list.  The pure result
  of the call is modelled by `collect_matieres_and_courses`, and the
  in-place effect on the argument by `collectEffect`.  The orphan scan
  of `build_pdf` (lines 222-229) runs after that mutation, which
  `build_pdf_fac_sections` reproduces.
* `sorted(set(xs), key=str.lower)` (lines 96 and 230): the set forgets
  multiplicity; Python set iteration order over strings is
  hash-seed-dependent and unspecified, and the sort is stable on it.
  The executable model `pySortedSet` fixes ONE admissible order (dedup
  in first-occurrence order, then a stable insertion sort by lowercased
  key); all theorems evaluated on inputs where two distinct titles
  share a lowercased form are stated so that they do not depend on the
  tie order, and the relational `PySortedSetOutput` captures exactly
  what the construct guarantees independently of the hash seed.
* `str.strip` and `str.lower` are modelled for the ASCII range
  (`pyStrip`, `pyLower`); the inputs of the claims are ASCII apart from
  the fixed placeholder prefix, which is never compared or stripped.
-/

/-- A JSON tree node as read by the program: optional `title`, optional
nested `data.name`, optional `id`, optional `type`, the truthiness of
`isFolder`, and an optional list of children. -/
inductive Node where
  | mk (title : Option String) (dataName : Option String) (nid : Option String)
       (ntype : Option String) (isFolder : Bool) (children : Option (List Node))

/-- Field accessor: the `title` entry of the node dict. -/
def Node.title : Node → Option String
  | .mk t _ _ _ _ _ => t

/-- Field accessor: the nested `data.name` entry of the node dict. -/
def Node.dataName : Node → Option String
  | .mk _ d _ _ _ _ => d

/-- Field accessor: the `id` entry of the node dict (as rendered by `str`). -/
def Node.nid : Node → Option String
  | .mk _ _ i _ _ _ => i

/-- Field accessor: the `type` entry of the node dict. -/
def Node.ntype : Node → Option String
  | .mk _ _ _ ty _ _ => ty

/-- Field accessor: `bool(n.get("isFolder", False))`. -/
def Node.isFolder : Node → Bool
  | .mk _ _ _ _ f _ => f

/-- Field accessor: the `children` entry of the node dict. -/
def Node.children : Node → Option (List Node)
  | .mk _ _ _ _ _ c => c

/-- Embeds `ensure_list` (src/app.py lines 35-38) on the modelled child
shapes: `None` becomes the empty list, a list is returned unchanged (in
Python: the same object, which is the source of the aliasing mutation
documented above). -/
def ensure_list : Option (List Node) → List Node
  | none => []
  | some l => l

/-- Python whitespace characters stripped by `str.strip()` (ASCII range). -/
def pyWS (c : Char) : Bool :=
  c = ' ' || c = '\t' || c = '\n' || c = '\r' || c = '\x0b' || c = '\x0c'

/-- Strip leading and trailing whitespace from a character list,
modelling `str.strip()`. -/
def stripChars (l : List Char) : List Char :=
  ((l.dropWhile pyWS).reverse.dropWhile pyWS).reverse

/-- `str.strip()` on strings. -/
def pyStrip (s : String) : String :=
  String.mk (stripChars s.data)

/-- `str.lower()` on a character (ASCII range). -/
def pyLowerChar (c : Char) : Char :=
  if 'A' ≤ c ∧ c ≤ 'Z' then Char.ofNat (c.toNat + 32) else c

/-- `str.lower()` on strings (ASCII range). -/
def pyLower (s : String) : String :=
  String.mk (s.data.map pyLowerChar)

/-- Python `or`-chaining on an optional string: the fallback is taken
when the value is absent or the empty string (the two falsy cases of the
modelled shapes). -/
def pyOrS : Option String → String → String
  | none, d => d
  | some s, d => if s = "" then d else s

/-- Embeds `node_title` (src/app.py lines 40-42): `title`, else nested
`data.name`, else the placeholder built from the id, then stripped. -/
def node_title (n : Node) : String :=
  pyStrip (pyOrS n.title (pyOrS n.dataName ("Élément " ++ n.nid.getD "?")))

/-- A string is whitespace-only when every character is Python whitespace
(vacuously true for the empty string). -/
def wsOnly (s : String) : Prop :=
  ∀ c ∈ s.data, pyWS c = true

instance (s : String) : Decidable (wsOnly s) := by
  unfold wsOnly; infer_instance

/-- The subject test of src/app.py line 86: `type` is `"ue"` with a false
folder flag, or `type` is `"category"`. -/
def is_matiere (n : Node) : Prop :=
  (n.ntype = some "ue" ∧ n.isFolder = false) ∨ n.ntype = some "category"

instance (n : Node) : Decidable (is_matiere n) := by
  unfold is_matiere; infer_instance

/- Size lemmas used for the termination of the worklist recursions. -/

theorem sizeOf_list_append (l₁ l₂ : List Node) :
    sizeOf (l₁ ++ l₂) + 1 = sizeOf l₁ + sizeOf l₂ := by
  induction l₁ with
  | nil => simp; omega
  | cons a t ih => simp_all; omega

theorem sizeOf_list_reverse (l : List Node) :
    sizeOf l.reverse = sizeOf l := by
  induction l with
  | nil => rfl
  | cons a t ih =>
      have h := sizeOf_list_append t.reverse [a]
      simp_all; omega

theorem Node.sizeOf_pos (n : Node) : 0 < sizeOf n := by
  cases n; simp_arith

theorem sizeOf_ensure_list_lt (n : Node) :
    sizeOf (ensure_list n.children) < sizeOf n := by
  cases n with
  | mk t d i ty f c =>
      cases c with
      | none => simp [ensure_list, Node.children]
      | some l => simp [ensure_list, Node.children]; omega

theorem sizeOf_tail_lt (m : Node) (rest : List Node) :
    sizeOf rest < sizeOf (m :: rest) := by
  simp

theorem sizeOf_push_rev_lt (m : Node) (rest : List Node) :
    sizeOf ((ensure_list m.children).reverse ++ rest) < sizeOf (m :: rest) := by
  have h1 := sizeOf_list_append (ensure_list m.children).reverse rest
  have h2 := sizeOf_list_reverse (ensure_list m.children)
  have h3 := sizeOf_ensure_list_lt m
  simp; omega

theorem sizeOf_push_back_lt (m : Node) (rest : List Node) :
    sizeOf (rest ++ ensure_list m.children) < sizeOf (m :: rest) := by
  have h1 := sizeOf_list_append rest (ensure_list m.children)
  have h3 := sizeOf_ensure_list_lt m
  simp; omega

/-- Embeds the worklist loop of `has_any_course` (src/app.py lines
62-69): pop a node, succeed if its raw `type` is `"cours"`, otherwise
push its children. -/
def hasAnyCourseAux : List Node → Bool
  | [] => false
  | n :: rest =>
      if n.ntype = some "cours" then true
      else hasAnyCourseAux ((ensure_list n.children).reverse ++ rest)
termination_by l => sizeOf l
decreasing_by
  apply sizeOf_push_rev_lt

/-- Embeds `has_any_course` (src/app.py lines 62-69). -/
def has_any_course (root : Node) : Bool :=
  hasAnyCourseAux [root]

/-- Embeds the inner course collector of `collect_matieres_and_courses`
(src/app.py lines 88-95), also reused verbatim by the orphan scan of
`build_pdf` (lines 222-229): LIFO worklist; a `"cours"` node contributes
its resolved title and is not descended into; any other node is
descended into. -/
def coursesUnderAux : List Node → List String
  | [] => []
  | m :: rest =>
      if m.ntype = some "cours" then node_title m :: coursesUnderAux rest
      else coursesUnderAux ((ensure_list m.children).reverse ++ rest)
termination_by l => sizeOf l
decreasing_by
  · apply sizeOf_tail_lt
  · apply sizeOf_push_rev_lt

/-- Case-insensitive order on titles: comparison of the lowercased
forms, the sort key of lines 96 and 230. -/
def lowerLe (a b : String) : Prop :=
  pyLower a ≤ pyLower b

instance : DecidableRel lowerLe := by
  unfold lowerLe; infer_instance

instance : IsTotal String lowerLe :=
  ⟨fun a b => le_total (pyLower a) (pyLower b)⟩

instance : IsTrans String lowerLe :=
  ⟨fun _ _ _ h₁ h₂ => le_trans h₁ h₂⟩

/-- Strict case-insensitive order on titles. -/
def lowerLt (a b : String) : Prop :=
  pyLower a < pyLower b

instance : DecidableRel lowerLt := by
  unfold lowerLt; infer_instance

instance : IsAntisymm String lowerLt :=
  ⟨fun _ _ h₁ h₂ => absurd h₂ (lt_asymm h₁)⟩

instance : IsTrans String lowerLt :=
  ⟨fun _ _ _ h₁ h₂ => lt_trans h₁ h₂⟩

/-- Executable model of `sorted(set(xs), key=str.lower)` (src/app.py
lines 96 and 230).  The Python set drops exact duplicates and iterates
in a hash-seed-dependent order; this model fixes one admissible order
(exact-deduplication, then a sort that is stable by lowercased key).
Facts stated about inputs with case-colliding distinct titles are kept
independent of the tie order; see `PySortedSetOutput` for the
order-agnostic characterisation. -/
def pySortedSet (xs : List String) : List String :=
  List.insertionSort lowerLe xs.dedup

/-- What `sorted(set(xs), key=str.lower)` guarantees about its output
regardless of the hash seed: the distinct elements of `xs`, each once,
in an order nondecreasing on the lowercased key. -/
def PySortedSetOutput (xs out : List String) : Prop :=
  out.Perm xs.dedup ∧ out.Pairwise lowerLe

/-- Embeds the outer breadth-first loop of
`collect_matieres_and_courses` (src/app.py lines 79-101): FIFO worklist
over the pending nodes; a subject node has its course titles collected,
deduplicated and sorted, and is appended when that list is non-empty
(its children are not re-enqueued); any other node has its children
enqueued. -/
def collectAux : List Node → List (String × List String)
  | [] => []
  | n :: rest =>
      if is_matiere n then
        if pySortedSet (coursesUnderAux [n]) = [] then collectAux rest
        else (node_title n, pySortedSet (coursesUnderAux [n])) :: collectAux rest
      else collectAux (rest ++ ensure_list n.children)
termination_by l => sizeOf l
decreasing_by
  · apply sizeOf_tail_lt
  · apply sizeOf_tail_lt
  · apply sizeOf_push_back_lt

/-- Embeds `collect_matieres_and_courses` (src/app.py lines 71-101):
the pure result of the call (the list of `(subject, courses)` pairs). -/
def collect_matieres_and_courses (fac : Node) : List (String × List String) :=
  collectAux (ensure_list fac.children)

/-- The in-place effect of `collect_matieres_and_courses` on its
argument: the worklist aliases the children list of the faculty
(`ensure_list` returns it unchanged) and the loop drains it, so a
present children list is empty after the call; an absent children field
is untouched (`ensure_list` built a fresh list). -/
def collectEffect (fac : Node) : Node :=
  match fac with
  | .mk t d i ty f none => .mk t d i ty f none
  | .mk t d i ty f (some _) => .mk t d i ty f (some [])

/-- Embeds the per-faculty section assembly of `build_pdf` (src/app.py
lines 216-240): run the extraction (which mutates the faculty as per
`collectEffect`), and when it produced nothing scan the CURRENT children
of the faculty for orphan courses, rendering them under "Autres" when
any are found. -/
def build_pdf_fac_sections (fac : Node) : List (String × List String) :=
  if collect_matieres_and_courses fac = [] then
    if pySortedSet (coursesUnderAux (ensure_list (collectEffect fac).children).reverse) = [] then []
    else [("Autres", pySortedSet (coursesUnderAux (ensure_list (collectEffect fac).children).reverse))]
  else collect_matieres_and_courses fac

/-- Embeds the faculty filter of the main block (src/app.py line 254). -/
def facs_with_courses (trees : List Node) : List Node :=
  trees.filter (fun t => has_any_course t)

/-- Embeds the skipped-faculty count of the main block (src/app.py
lines 253-255). -/
def skipped (trees : List Node) : Nat :=
  trees.length - (facs_with_courses trees).length

/-- Reflexive descendant relation through `ensure_list` children:
`InSubtree m n` holds when `m` is `n` or lies below it. -/
inductive InSubtree : Node → Node → Prop
  | refl (n : Node) : InSubtree n n
  | step {c m n : Node} : c ∈ ensure_list n.children → InSubtree m c → InSubtree m n

/-- `InForest m l` holds when `m` lies in the subtree of some root in `l`. -/
def InForest (m : Node) (l : List Node) : Prop :=
  ∃ n ∈ l, InSubtree m n

/- ------------------------------------------------------------------ -/
/- TreeLoader: `load_all_trees` (src/app.py lines 44-54).              -/
/- ------------------------------------------------------------------ -/

/-- A JSON value, as decoded by `json.loads`. -/
inductive J where
  | null
  | jbool (b : Bool)
  | jnum (n : Int)
  | jstr (s : String)
  | jarr (elems : List J)
  | jobj (fields : List (String × J))

/-- Dict lookup: the value bound to the first occurrence of the key. -/
def jget (fields : List (String × J)) (k : String) : Option J :=
  (fields.find? (fun p => p.1 == k)).map Prod.snd

/-- Embeds the body of the per-file loop of `load_all_trees` (src/app.py
lines 47-53) on one already-decoded buffer.  `none` stands for a buffer
on which `json.loads` (or the read/decode before it) raised.  A raised
exception anywhere in the try block — bad JSON, a non-dict top level or
a non-dict `data` value (whose `.get` raises `AttributeError`) — is
`error`; otherwise the contributed faculty list is returned: the value
of `data.hierarchicalTreeData` when it is a list, the empty list when
the path is absent, and — with NO exception and hence no warning — the
empty list again when the value is present but not a list (the
`isinstance` test merely skips the `extend`). -/
def loadFile : Option J → Except Unit (List J)
  | none => .error ()
  | some v =>
      match v with
      | .jobj fields =>
          match (jget fields "data").getD (.jobj []) with
          | .jobj df =>
              match (jget df "hierarchicalTreeData").getD (.jarr []) with
              | .jarr xs => .ok xs
              | _ => .ok []
          | _ => .error ()
      | _ => .error ()

/-- Embeds `load_all_trees` (src/app.py lines 44-54): fold the per-file
step over the buffers in order, accumulating contributed faculties and,
for each file whose try block raised, one warning carrying that file
name (the model keeps the name of the f-string message). -/
def load_all_trees : List (String × Option J) → List J × List String
  | [] => ([], [])
  | (nm, p) :: rest =>
      match loadFile p, load_all_trees rest with
      | .ok xs, (ts, ws) => (xs ++ ts, ws)
      | .error _, (ts, ws) => (ts, nm :: ws)

/-- The faculties one file contributes. -/
def fileTrees (f : String × Option J) : List J :=
  match loadFile f.2 with
  | .ok xs => xs
  | .error _ => []

/-- The warnings one file contributes. -/
def fileWarnings (f : String × Option J) : List String :=
  match loadFile f.2 with
  | .ok _ => []
  | .error _ => [f.1]

/- ------------------------------------------------------------------ -/
/- Classification policies (spec §4.3) and Policy A extraction.        -/
/- ------------------------------------------------------------------ -/

/-- Modelled from the spec: the two classification policies of §4.3,
`A` (type-based) and `B` (folder-aware).  Only the Policy-B extractor
exists in src/ (`collect_matieres_and_courses`); the policy selection
and the Policy-A extractor come from other revisions of the tool that
are not under src/ and are modelled from §4.3/§4.4. -/
inductive Policy where
  | A
  | B

/-- Modelled from the spec: the depth-first course collection of Policy
A (§4.4): traverse the whole subtree of each pending node, collecting
the resolved title of every node whose `type` is `"cours"`; under Policy
A every non-course node is transparent, and traversal continues into the
children of course nodes as well. -/
def policyA_courses : List Node → List String
  | [] => []
  | n :: rest =>
      if n.ntype = some "cours" then
        node_title n :: policyA_courses (ensure_list n.children ++ rest)
      else policyA_courses (ensure_list n.children ++ rest)
termination_by l => sizeOf l
decreasing_by
  all_goals
    have h1 := sizeOf_list_append (ensure_list n.children) rest
    have h3 := sizeOf_ensure_list_lt n
    simp; omega

/-- Modelled from the spec: case-insensitive deduplication keeping the
first-encountered casing (§3, §4.4): a title is dropped when an earlier
title has the same lowercased form. -/
def ciDedup : List String → List String
  | [] => []
  | s :: ts => s :: ciDedup (ts.filter (fun t => pyLower t ≠ pyLower s))
termination_by l => l.length
decreasing_by
  have h := List.length_filter_le (fun t => decide (pyLower t ≠ pyLower s)) ts
  simp only [List.length_cons]
  omega

/-- Case-insensitive ascending sort (stable). -/
def sortCI (xs : List String) : List String :=
  List.insertionSort lowerLe xs

/-- Modelled from the spec: the Policy-A extractor (§4.4): one pair per
direct child of the faculty root, in order, labelled with the resolved
child title and carrying the case-insensitively deduplicated and sorted
titles of the course nodes of the child subtree — emitted even when the
course list is empty. -/
def collectPolicyA (fac : Node) : List (String × List String) :=
  (ensure_list fac.children).map
    (fun c => (node_title c, sortCI (ciDedup (policyA_courses [c]))))

/-- Modelled from the spec: the extraction entry point taking the
classification policy as an explicit configuration value (§4.3, §6):
Policy A dispatches to the spec-modelled extractor, Policy B to the
`collect_matieres_and_courses` of src/app.py. -/
def extract : Policy → Node → List (String × List String)
  | .A, fac => collectPolicyA fac
  | .B, fac => collect_matieres_and_courses fac

/- ------------------------------------------------------------------ -/
/- Concrete inputs used by counterexamples and witnesses.              -/
/- ------------------------------------------------------------------ -/

/-- A leaf course node with the given title. -/
def cNode (t : String) : Node :=
  Node.mk (some t) none none (some "cours") false none

/-- The subject node of the end-to-end example of spec §8.6: `"Algo"`,
type `"ue"`, not a folder, with the two courses `"Cours1"` and
`"cours1"`. -/
def algoNode : Node :=
  Node.mk (some "Algo") none none (some "ue") false (some [cNode "Cours1", cNode "cours1"])

/-- The faculty of the end-to-end example of spec §8.6. -/
def exFacA : Node :=
  Node.mk (some "FacA") none none none false (some [algoNode])

/-- A faculty with one subject `"Algo"` holding one course `"Cours1"`. -/
def exFacIdem : Node :=
  Node.mk (some "FacA") none none none false
    (some [Node.mk (some "Algo") none none (some "ue") false (some [cNode "Cours1"])])

/-- A faculty whose only child is a bare course node (no subject node
anywhere): the Policy-B fallback situation of spec §8.5. -/
def exFacOrphan : Node :=
  Node.mk (some "FacA") none none none false (some [cNode "C1"])

/-- A childless faculty whose root node itself has type `"cours"`. -/
def exFacRootCourse : Node :=
  Node.mk (some "FacB") none none (some "cours") false none

/-- A faculty for the Policy-A witness: two direct children, one with a
course below a transparent wrapper and one with no course at all. -/
def exFacPolicyA : Node :=
  Node.mk (some "FacC") none none none false
    (some [Node.mk (some "S1") none none none false
             (some [Node.mk (some "W") none none none true (some [cNode "X"])]),
           Node.mk (some "S2") none none none false none])

/- ------------------------------------------------------------------ -/
/- Properties of the sorted-set model.                                 -/
/- ------------------------------------------------------------------ -/

theorem pySortedSet_perm (xs : List String) :
    (pySortedSet xs).Perm xs.dedup :=
  List.perm_insertionSort lowerLe xs.dedup

theorem pySortedSet_nodup (xs : List String) :
    (pySortedSet xs).Nodup :=
  (pySortedSet_perm xs).symm.nodup (List.nodup_dedup xs)

theorem pySortedSet_sorted (xs : List String) :
    (pySortedSet xs).Pairwise lowerLe :=
  List.sorted_insertionSort lowerLe xs.dedup

theorem mem_pySortedSet {t : String} {xs : List String} :
    t ∈ pySortedSet xs ↔ t ∈ xs := by
  rw [(pySortedSet_perm xs).mem_iff, List.mem_dedup]

theorem pySortedSet_spec (xs : List String) :
    PySortedSetOutput xs (pySortedSet xs) :=
  ⟨pySortedSet_perm xs, pySortedSet_sorted xs⟩

/- ------------------------------------------------------------------ -/
/- Correctness of the course-detection traversal.                      -/
/- ------------------------------------------------------------------ -/

theorem hasAnyCourseAux_iff (l : List Node) :
    hasAnyCourseAux l = true ↔
      ∃ n ∈ l, ∃ m, InSubtree m n ∧ m.ntype = some "cours" := by
  induction l using hasAnyCourseAux.induct with
  | case1 =>
      simp [hasAnyCourseAux]
  | case2 n rest h =>
      simp only [hasAnyCourseAux, if_pos h, true_iff]
      exact ⟨n, List.mem_cons_self n rest, n, InSubtree.refl n, h⟩
  | case3 n rest h ih =>
      rw [hasAnyCourseAux, if_neg h, ih]
      constructor
      · rintro ⟨x, hx, m, hsub, hm⟩
        rcases List.mem_append.mp hx with hx | hx
        · exact ⟨n, List.mem_cons_self n rest,
            m, InSubtree.step (List.mem_reverse.mp hx) hsub, hm⟩
        · exact ⟨x, List.mem_cons_of_mem n hx, m, hsub, hm⟩
      · rintro ⟨x, hx, m, hsub, hm⟩
        rcases List.mem_cons.mp hx with rfl | hx
        · cases hsub with
          | refl => exact absurd hm h
          | step hc hsub2 =>
              exact ⟨_, List.mem_append_left _ (List.mem_reverse.mpr hc), m, hsub2, hm⟩
        · exact ⟨x, List.mem_append_right _ hx, m, hsub, hm⟩

theorem has_any_course_iff (n : Node) :
    has_any_course n = true ↔ ∃ m, InSubtree m n ∧ m.ntype = some "cours" := by
  rw [has_any_course, hasAnyCourseAux_iff]
  constructor
  · rintro ⟨x, hx, m, hsub, hm⟩
    rcases List.mem_singleton.mp hx with rfl
    exact ⟨m, hsub, hm⟩
  · rintro ⟨m, hsub, hm⟩
    exact ⟨n, List.mem_singleton.mpr rfl, m, hsub, hm⟩

/- ------------------------------------------------------------------ -/
/- Provenance of collected course titles.                              -/
/- ------------------------------------------------------------------ -/

theorem mem_coursesUnderAux {t : String} (l : List Node)
    (h : t ∈ coursesUnderAux l) :
    ∃ n ∈ l, ∃ c, InSubtree c n ∧ c.ntype = some "cours" ∧ node_title c = t := by
  induction l using coursesUnderAux.induct with
  | case1 =>
      rw [coursesUnderAux] at h
      cases h
  | case2 m rest hm ih =>
      rw [coursesUnderAux, if_pos hm] at h
      rcases List.mem_cons.mp h with rfl | h2
      · exact ⟨m, List.mem_cons_self m rest, m, InSubtree.refl m, hm, rfl⟩
      · rcases ih h2 with ⟨n, hn, c, hsub, hc, ht⟩
        exact ⟨n, List.mem_cons_of_mem m hn, c, hsub, hc, ht⟩
  | case3 m rest hm ih =>
      rw [coursesUnderAux, if_neg hm] at h
      rcases ih h with ⟨n, hn, c, hsub, hc, ht⟩
      rcases List.mem_append.mp hn with hn | hn
      · exact ⟨m, List.mem_cons_self m rest,
          c, InSubtree.step (List.mem_reverse.mp hn) hsub, hc, ht⟩
      · exact ⟨n, List.mem_cons_of_mem m hn, c, hsub, hc, ht⟩

theorem mem_collectAux {p : String × List String} (l : List Node)
    (h : p ∈ collectAux l) :
    ∃ n, InForest n l ∧ is_matiere n ∧
      p = (node_title n, pySortedSet (coursesUnderAux [n])) := by
  induction l using collectAux.induct with
  | case1 =>
      rw [collectAux] at h
      cases h
  | case2 n rest hn hempty ih =>
      rw [collectAux, if_pos hn, if_pos hempty] at h
      rcases ih h with ⟨x, ⟨r, hr, hsub⟩, hx, hp⟩
      exact ⟨x, ⟨r, List.mem_cons_of_mem n hr, hsub⟩, hx, hp⟩
  | case3 n rest hn hempty ih =>
      rw [collectAux, if_pos hn, if_neg hempty] at h
      rcases List.mem_cons.mp h with rfl | h2
      · exact ⟨n, ⟨n, List.mem_cons_self n rest, InSubtree.refl n⟩, hn, rfl⟩
      · rcases ih h2 with ⟨x, ⟨r, hr, hsub⟩, hx, hp⟩
        exact ⟨x, ⟨r, List.mem_cons_of_mem n hr, hsub⟩, hx, hp⟩
  | case4 n rest hn ih =>
      rw [collectAux, if_neg hn] at h
      rcases ih h with ⟨x, ⟨r, hr, hsub⟩, hx, hp⟩
      rcases List.mem_append.mp hr with hr | hr
      · exact ⟨x, ⟨r, List.mem_cons_of_mem n hr, hsub⟩, hx, hp⟩
      · exact ⟨x, ⟨n, List.mem_cons_self n rest,
          InSubtree.step hr hsub⟩, hx, hp⟩

/- ------------------------------------------------------------------ -/
/- Whitespace and stripping lemmas.                                    -/
/- ------------------------------------------------------------------ -/

theorem exists_not_dropWhile (p : Char → Bool) (l : List Char)
    (h : ∃ c ∈ l, p c = false) : ∃ c ∈ l.dropWhile p, p c = false := by
  induction l with
  | nil =>
      rcases h with ⟨c, hc, _⟩
      cases hc
  | cons a t ih =>
      rcases h with ⟨c, hc, hpc⟩
      by_cases hpa : p a = true
      · rw [List.dropWhile_cons_of_pos hpa]
        apply ih
        rcases List.mem_cons.mp hc with rfl | hct
        · rw [hpa] at hpc; cases hpc
        · exact ⟨c, hct, hpc⟩
      · rw [List.dropWhile_cons_of_neg hpa]
        exact ⟨c, hc, hpc⟩

theorem exists_not_stripChars (l : List Char)
    (h : ∃ c ∈ l, pyWS c = false) : ∃ c ∈ stripChars l, pyWS c = false := by
  unfold stripChars
  have h1 := exists_not_dropWhile pyWS l h
  have h2 : ∃ c ∈ (l.dropWhile pyWS).reverse, pyWS c = false := by
    rcases h1 with ⟨c, hc, hpc⟩
    exact ⟨c, List.mem_reverse.mpr hc, hpc⟩
  have h3 := exists_not_dropWhile pyWS (l.dropWhile pyWS).reverse h2
  rcases h3 with ⟨c, hc, hpc⟩
  exact ⟨c, List.mem_reverse.mpr hc, hpc⟩

theorem pyStrip_good (s : String) (h : ∃ c ∈ s.data, pyWS c = false) :
    pyStrip s ≠ "" ∧ ¬ wsOnly (pyStrip s) := by
  rcases exists_not_stripChars s.data h with ⟨c, hc, hpc⟩
  constructor
  · intro heq
    have hdata : stripChars s.data = [] := congrArg String.data heq
    rw [hdata] at hc
    cases hc
  · intro hws
    have := hws c hc
    rw [this] at hpc
    cases hpc

/- ------------------------------------------------------------------ -/
/- Loader decomposition.                                               -/
/- ------------------------------------------------------------------ -/

theorem load_all_trees_eq (files : List (String × Option J)) :
    load_all_trees files =
      ((files.map fileTrees).flatten, (files.map fileWarnings).flatten) := by
  induction files with
  | nil => rfl
  | cons f rest ih =>
      obtain ⟨nm, p⟩ := f
      cases h : loadFile p with
      | ok xs =>
          simp [load_all_trees, h, ih, fileTrees, fileWarnings]
      | error e =>
          simp [load_all_trees, h, ih, fileTrees, fileWarnings]

/- ------------------------------------------------------------------ -/
/- Filter counting.                                                    -/
/- ------------------------------------------------------------------ -/

theorem length_filter_split (p : Node → Bool) (l : List Node) :
    (l.filter p).length + (l.filter (fun t => !(p t))).length = l.length := by
  induction l with
  | nil => rfl
  | cons a t ih =>
      cases h : p a <;> simp [List.filter_cons, h] <;> omega

/- ------------------------------------------------------------------ -/
/- Policy-A helper lemmas.                                             -/
/- ------------------------------------------------------------------ -/

theorem mem_policyA_courses (t : String) (l : List Node) :
    t ∈ policyA_courses l ↔
      ∃ n ∈ l, ∃ m, InSubtree m n ∧ m.ntype = some "cours" ∧ node_title m = t := by
  induction l using policyA_courses.induct with
  | case1 =>
      rw [policyA_courses]
      simp
  | case2 n rest hn ih =>
      rw [policyA_courses, if_pos hn]
      constructor
      · intro h
        rcases List.mem_cons.mp h with rfl | h2
        · exact ⟨n, List.mem_cons_self n rest, n, InSubtree.refl n, hn, rfl⟩
        · rcases ih.mp h2 with ⟨x, hx, m, hsub, hm, ht⟩
          rcases List.mem_append.mp hx with hx | hx
          · exact ⟨n, List.mem_cons_self n rest, m, InSubtree.step hx hsub, hm, ht⟩
          · exact ⟨x, List.mem_cons_of_mem n hx, m, hsub, hm, ht⟩
      · rintro ⟨x, hx, m, hsub, hm, ht⟩
        rcases List.mem_cons.mp hx with rfl | hx
        · cases hsub with
          | refl =>
              rw [← ht]
              exact List.mem_cons_self _ _
          | step hc hsub2 =>
              exact List.mem_cons_of_mem _ (ih.mpr
                ⟨_, List.mem_append_left _ hc, m, hsub2, hm, ht⟩)
        · exact List.mem_cons_of_mem _ (ih.mpr
            ⟨x, List.mem_append_right _ hx, m, hsub, hm, ht⟩)
  | case3 n rest hn ih =>
      rw [policyA_courses, if_neg hn, ih]
      constructor
      · rintro ⟨x, hx, m, hsub, hm, ht⟩
        rcases List.mem_append.mp hx with hx | hx
        · exact ⟨n, List.mem_cons_self n rest, m, InSubtree.step hx hsub, hm, ht⟩
        · exact ⟨x, List.mem_cons_of_mem n hx, m, hsub, hm, ht⟩
      · rintro ⟨x, hx, m, hsub, hm, ht⟩
        rcases List.mem_cons.mp hx with rfl | hx
        · cases hsub with
          | refl => exact absurd hm hn
          | step hc hsub2 =>
              exact ⟨_, List.mem_append_left _ hc, m, hsub2, hm, ht⟩
        · exact ⟨x, List.mem_append_right _ hx, m, hsub, hm, ht⟩

theorem mem_ciDedup_sub {t : String} (xs : List String)
    (h : t ∈ ciDedup xs) : t ∈ xs := by
  induction xs using ciDedup.induct with
  | case1 =>
      rw [ciDedup] at h
      cases h
  | case2 s ts ih =>
      rw [ciDedup] at h
      rcases List.mem_cons.mp h with rfl | h2
      · exact List.mem_cons_self _ _
      · exact List.mem_cons_of_mem _ (List.mem_of_mem_filter (ih h2))

theorem ciDedup_covers (xs : List String) :
    ∀ x ∈ xs, ∃ t ∈ ciDedup xs, pyLower t = pyLower x := by
  induction xs using ciDedup.induct with
  | case1 =>
      intro x hx
      cases hx
  | case2 s ts ih =>
      intro x hx
      rcases List.mem_cons.mp hx with rfl | hx
      · exact ⟨x, by rw [ciDedup]; exact List.mem_cons_self _ _, rfl⟩
      · by_cases hlow : pyLower x = pyLower s
        · exact ⟨s, by rw [ciDedup]; exact List.mem_cons_self _ _, hlow.symm⟩
        · have hxf : x ∈ ts.filter (fun t => pyLower t ≠ pyLower s) :=
            List.mem_filter.mpr ⟨hx, by simpa using hlow⟩
          rcases ih x hxf with ⟨t, ht, hteq⟩
          exact ⟨t, by rw [ciDedup]; exact List.mem_cons_of_mem _ ht, hteq⟩

theorem ciDedup_nodupLower (xs : List String) :
    ((ciDedup xs).map pyLower).Nodup := by
  induction xs using ciDedup.induct with
  | case1 =>
      rw [ciDedup]
      exact List.nodup_nil
  | case2 s ts ih =>
      rw [ciDedup]
      rw [List.map_cons, List.nodup_cons]
      refine ⟨?_, ih⟩
      intro hmem
      rcases List.mem_map.mp hmem with ⟨t, ht, hteq⟩
      have := List.mem_filter.mp (mem_ciDedup_sub _ ht)
      rw [hteq] at this
      simp at this

/- ------------------------------------------------------------------ -/
/- Evaluations of the concrete inputs.                                 -/
/- ------------------------------------------------------------------ -/

theorem eval_collect_exFacA :
    collect_matieres_and_courses exFacA = [("Algo", ["cours1", "Cours1"])] := by
  simp [collect_matieres_and_courses, collectAux, exFacA, algoNode, cNode, ensure_list,
    Node.ntype, Node.children, Node.isFolder, is_matiere, coursesUnderAux, node_title,
    Node.title, Node.dataName, Node.nid, pyStrip, pyOrS, stripChars, pyWS, pySortedSet,
    List.dedup, List.insertionSort, lowerLe, pyLower, pyLowerChar, List.orderedInsert]

theorem eval_collect_exFacIdem :
    collect_matieres_and_courses exFacIdem = [("Algo", ["Cours1"])] := by
  simp [collect_matieres_and_courses, collectAux, exFacIdem, cNode, ensure_list,
    Node.ntype, Node.children, Node.isFolder, is_matiere, coursesUnderAux, node_title,
    Node.title, Node.dataName, Node.nid, pyStrip, pyOrS, stripChars, pyWS, pySortedSet,
    List.dedup, List.insertionSort, lowerLe, pyLower, pyLowerChar, List.orderedInsert]

theorem eval_collect_effect_exFacIdem :
    collect_matieres_and_courses (collectEffect exFacIdem) = [] := by
  simp [collect_matieres_and_courses, collectAux, collectEffect, exFacIdem,
    ensure_list, Node.children]

theorem eval_has_any_course_exFacOrphan : has_any_course exFacOrphan = true := by
  simp [has_any_course, hasAnyCourseAux, exFacOrphan, cNode, ensure_list,
    Node.ntype, Node.children]

theorem eval_collect_exFacOrphan :
    collect_matieres_and_courses exFacOrphan = [] := by
  simp [collect_matieres_and_courses, collectAux, exFacOrphan, cNode, ensure_list,
    Node.ntype, Node.children, Node.isFolder, is_matiere]

theorem eval_sections_exFacOrphan : build_pdf_fac_sections exFacOrphan = [] := by
  have h2 : collectEffect exFacOrphan = Node.mk (some "FacA") none none none false (some []) := rfl
  simp [build_pdf_fac_sections, eval_collect_exFacOrphan, h2, ensure_list, Node.children,
    coursesUnderAux, pySortedSet, List.dedup, List.insertionSort]

theorem eval_extract_A_exFacPolicyA :
    extract Policy.A exFacPolicyA = [("S1", ["X"]), ("S2", [])] := by
  simp [extract, collectPolicyA, exFacPolicyA, cNode, ensure_list, Node.ntype,
    Node.children, Node.isFolder, node_title, Node.title, Node.dataName, Node.nid,
    pyStrip, pyOrS, stripChars, pyWS, policyA_courses, ciDedup, sortCI,
    List.insertionSort, lowerLe, pyLower, pyLowerChar]

/- Concrete loader inputs. -/

/-- A file whose `data.hierarchicalTreeData` is present but not an array. -/
def badFileNonArr : String × Option J :=
  ("f1.json", some (J.jobj [("data", J.jobj [("hierarchicalTreeData", J.jnum 5)])]))

/-- A file whose `data.hierarchicalTreeData` path is absent. -/
def badFileAbsent : String × Option J :=
  ("f2.json", some (J.jobj [("data", J.jobj [])]))

/-- A well-formed file contributing one faculty. -/
def goodFile1 : String × Option J :=
  ("a.json", some (J.jobj [("data", J.jobj [("hierarchicalTreeData", J.jarr [J.jstr "F1"])])]))

/-- A well-formed file contributing two faculties. -/
def goodFile2 : String × Option J :=
  ("c.json", some (J.jobj [("data", J.jobj [("hierarchicalTreeData",
    J.jarr [J.jstr "F2", J.jstr "F3"])])]))

/-- A node whose `title` is a whitespace-only (but truthy) string. -/
def wsTitleNode : Node :=
  Node.mk (some " ") none none none false none

/- ------------------------------------------------------------------ -/
/- C1                                                                  -/
/- ------------------------------------------------------------------ -/

/-- C1 counterexample: on the end-to-end example of the claim (faculty
`"FacA"`, subject `"Algo"`, course nodes `"Cours1"` and `"cours1"`), the
Policy-B extraction of src/app.py returns ONE subject `"Algo"` whose
course list has TWO entries — both casings are retained, because line 96
deduplicates with `set(...)`, which compares exactly, not
case-insensitively.  This refutes the claimed collapse to a single
course `"Cours1"`.  (The two retained entries are `"Cours1"` and
`"cours1"`, in a set-iteration tie order that the statement does not fix.) -/
theorem C1_counterexample :
    (collect_matieres_and_courses exFacA).map (fun p => (p.1, p.2.length)) = [("Algo", 2)] ∧
    ∀ p ∈ collect_matieres_and_courses exFacA, "Cours1" ∈ p.2 ∧ "cours1" ∈ p.2 := by
  rw [eval_collect_exFacA]
  constructor
  · rfl
  · intro p hp
    rcases List.mem_singleton.mp hp with rfl
    exact ⟨by decide, by decide⟩

/-- C1 (amended): within one subject only course nodes with EXACTLY
equal resolved titles collapse to one entry; the emitted course list has
no duplicate strings and is sorted nondecreasingly on the lowercased
key, but two titles differing only in case are both retained. -/
theorem C1_amended (fac : Node) (p : String × List String)
    (hp : p ∈ collect_matieres_and_courses fac) :
    p.2.Nodup ∧ p.2.Pairwise lowerLe := by
  rcases mem_collectAux _ hp with ⟨n, _, _, rfl⟩
  exact ⟨pySortedSet_nodup _, pySortedSet_sorted _⟩

/-- C1 witness: the amended statement evaluated on the example faculty. -/
theorem C1_amended_witness :
    (("Algo", ["cours1", "Cours1"]) ∈ collect_matieres_and_courses exFacA) ∧
    (["cours1", "Cours1"] : List String).Nodup ∧
    (["cours1", "Cours1"] : List String).Pairwise lowerLe := by
  have hp : (("Algo", ["cours1", "Cours1"])) ∈ collect_matieres_and_courses exFacA := by
    rw [eval_collect_exFacA]
    exact List.mem_singleton.mpr rfl
  exact ⟨hp, C1_amended exFacA _ hp⟩

/- ------------------------------------------------------------------ -/
/- C2                                                                  -/
/- ------------------------------------------------------------------ -/

/-- C2: the code evaluated at the failing input.  On a faculty with one
subject `"Algo"` holding one course, the first extraction returns that
subject but empties the faculty children list in place (the worklist of
`collect_matieres_and_courses` aliases it through `ensure_list` and
`pop(0)` drains it), so the faculty is mutated and a second run on the
mutated faculty returns the empty list: extraction is neither
mutation-free nor idempotent, as the claim (and spec §5/§8.4) requires. -/
theorem C2_code_behavior :
    collect_matieres_and_courses exFacIdem = [("Algo", ["Cours1"])] ∧
    collectEffect exFacIdem ≠ exFacIdem ∧
    collect_matieres_and_courses (collectEffect exFacIdem) = [] := by
  refine ⟨eval_collect_exFacIdem, ?_, eval_collect_effect_exFacIdem⟩
  simp [collectEffect, exFacIdem]

/- ------------------------------------------------------------------ -/
/- C3                                                                  -/
/- ------------------------------------------------------------------ -/

/-- C3: the code evaluated at the failing input.  A faculty whose only
child is a bare course node passes `has_any_course` and collects zero
subjects, so per the claim (and spec §4.4/§8.5 and the comment at
src/app.py lines 218-220) it should render a single `"Autres"` subject
with that course; but `collect_matieres_and_courses` has already drained
the children list in place, so the orphan scan of `build_pdf` (lines
222-229) sees an empty list and the faculty section lists no subject and
no course at all. -/
theorem C3_code_behavior :
    has_any_course exFacOrphan = true ∧
    collect_matieres_and_courses exFacOrphan = [] ∧
    build_pdf_fac_sections exFacOrphan = [] :=
  ⟨eval_has_any_course_exFacOrphan, eval_collect_exFacOrphan, eval_sections_exFacOrphan⟩

/- ------------------------------------------------------------------ -/
/- C4                                                                  -/
/- ------------------------------------------------------------------ -/

/-- C4 counterexample: a file whose `data.hierarchicalTreeData` is
present but not an array, and a file where the path is absent, both
contribute zero faculties but produce NO warning at all — `load_all_trees`
only warns when the try block raises, and the `isinstance` test merely
skips the `extend`.  This refutes the claimed per-file warning for the
absent/non-array cases. -/
theorem C4_counterexample :
    load_all_trees [badFileNonArr, badFileAbsent] = ([], []) := rfl

/-- C4 (amended): each buffer is handled independently — the batch never
aborts and the loaded faculties and warnings are the per-file
contributions concatenated in order.  A buffer on which decoding (or the
attribute access on a non-dict `data`) raises contributes zero faculties
and exactly one warning naming that file; a buffer whose
`data.hierarchicalTreeData` is absent or not an array contributes zero
faculties SILENTLY, with no warning.  In particular a decode failure on
one file among three leaves the other two files' faculties intact and
produces exactly one warning naming the failing file. -/
theorem C4_amended :
    (∀ files : List (String × Option J),
      load_all_trees files =
        ((files.map fileTrees).flatten, (files.map fileWarnings).flatten)) ∧
    load_all_trees [goodFile1, ("bad.json", none), goodFile2] =
      (fileTrees goodFile1 ++ fileTrees goodFile2, ["bad.json"]) := by
  exact ⟨load_all_trees_eq, rfl⟩

/- ------------------------------------------------------------------ -/
/- C5                                                                  -/
/- ------------------------------------------------------------------ -/

/-- C5: the classification policy is an explicit configuration value
with the two strategies (`extract Policy.B` is the
`collect_matieres_and_courses` of src/app.py), and under Policy A the
extraction emits one pair per direct child of the faculty root, in
direct-children order (same length, i-th label = i-th child's resolved
title, including pairs with an empty course list), whose course list is
sorted nondecreasingly on the lowercased key, has pairwise-distinct
lowercased titles, contains only titles of `"cours"`-typed nodes of that
child's subtree, and covers every `"cours"`-typed node of the subtree up
to lowercasing. -/
theorem C5_policyA (fac : Node) (i : Nat)
    (hi : i < (extract Policy.A fac).length)
    (hj : i < (ensure_list fac.children).length) :
    extract Policy.B fac = collect_matieres_and_courses fac ∧
    (extract Policy.A fac).length = (ensure_list fac.children).length ∧
    ((extract Policy.A fac).get ⟨i, hi⟩).1 =
      node_title ((ensure_list fac.children).get ⟨i, hj⟩) ∧
    ((extract Policy.A fac).get ⟨i, hi⟩).2.Pairwise lowerLe ∧
    (((extract Policy.A fac).get ⟨i, hi⟩).2.map pyLower).Nodup ∧
    (∀ t ∈ ((extract Policy.A fac).get ⟨i, hi⟩).2,
      ∃ m, InSubtree m ((ensure_list fac.children).get ⟨i, hj⟩) ∧
        m.ntype = some "cours" ∧ node_title m = t) ∧
    (∀ m, InSubtree m ((ensure_list fac.children).get ⟨i, hj⟩) →
      m.ntype = some "cours" →
      ∃ t ∈ ((extract Policy.A fac).get ⟨i, hi⟩).2,
        pyLower t = pyLower (node_title m)) := by
  have hA : extract Policy.A fac =
      (ensure_list fac.children).map
        (fun c => (node_title c, sortCI (ciDedup (policyA_courses [c])))) := rfl
  have hget : (extract Policy.A fac).get ⟨i, hi⟩ =
      (node_title ((ensure_list fac.children).get ⟨i, hj⟩),
       sortCI (ciDedup (policyA_courses [(ensure_list fac.children).get ⟨i, hj⟩]))) := by
    simp only [hA, List.get_eq_getElem, List.getElem_map]
  refine ⟨rfl, by rw [hA, List.length_map], by rw [hget], ?_, ?_, ?_, ?_⟩
  · rw [hget]
    exact List.sorted_insertionSort lowerLe _
  · rw [hget]
    exact ((List.perm_insertionSort lowerLe _).map pyLower).nodup_iff.mpr
      (ciDedup_nodupLower _)
  · intro t ht
    rw [hget] at ht
    have ht2 : t ∈ ciDedup (policyA_courses [(ensure_list fac.children).get ⟨i, hj⟩]) :=
      (List.perm_insertionSort lowerLe _).mem_iff.mp ht
    have ht3 := mem_ciDedup_sub _ ht2
    rcases (mem_policyA_courses t _).mp ht3 with ⟨x, hx, m, hsub, hm, hmt⟩
    rcases List.mem_singleton.mp hx with rfl
    exact ⟨m, hsub, hm, hmt⟩
  · intro m hsub hm
    have hmem : node_title m ∈
        policyA_courses [(ensure_list fac.children).get ⟨i, hj⟩] :=
      (mem_policyA_courses _ _).mpr
        ⟨_, List.mem_singleton.mpr rfl, m, hsub, hm, rfl⟩
    rcases ciDedup_covers _ _ hmem with ⟨t, ht, hteq⟩
    refine ⟨t, ?_, hteq⟩
    rw [hget]
    exact (List.perm_insertionSort lowerLe _).mem_iff.mpr ht

/-- C5 witness: the Policy-A characterisation evaluated on a concrete
faculty at the second child (whose course list is empty). -/
theorem C5_policyA_witness :
    (extract Policy.A exFacPolicyA).length = (ensure_list exFacPolicyA.children).length ∧
    ((extract Policy.A exFacPolicyA).get ⟨1, by decide⟩).1 =
      node_title ((ensure_list exFacPolicyA.children).get ⟨1, by decide⟩) := by
  exact ⟨(C5_policyA exFacPolicyA 1 (by decide) (by decide)).2.1,
         (C5_policyA exFacPolicyA 1 (by decide) (by decide)).2.2.1⟩

/- ------------------------------------------------------------------ -/
/- C6                                                                  -/
/- ------------------------------------------------------------------ -/

/-- C6 counterexample: a node whose `title` is the whitespace-only
string made of one space is truthy in Python, so `node_title` selects it
and strips it to the EMPTY string — refuting the claim that the resolved
title is never empty or whitespace-only. -/
theorem C6_counterexample : node_title wsTitleNode = "" := rfl

/-- An optional string field that cannot poison the title resolution: if
it holds a non-empty (truthy) string, that string has at least one
non-whitespace character. -/
def goodOpt (a : Option String) : Prop :=
  ∀ s, a = some s → s ≠ "" → ∃ c ∈ s.data, pyWS c = false

/-- C6 (amended): for every node whose `title` and nested `data.name`
are absent, empty (falsy), or contain at least one non-whitespace
character, the resolved display title is a non-empty, non-whitespace-only
string (in particular this holds for all nodes with missing `title` and
missing `data.name`, where the placeholder is used); a node whose
`title` is whitespace-only but non-empty resolves to the empty string
instead. -/
theorem C6_amended (n : Node) (ht : goodOpt n.title) (hd : goodOpt n.dataName) :
    node_title n ≠ "" ∧ ¬ wsOnly (node_title n) := by
  have hplaceholder : ∃ c ∈ ("Élément " ++ n.nid.getD "?").data, pyWS c = false := by
    refine ⟨'É', ?_, by decide⟩
    rw [String.data_append]
    exact List.mem_append_left _ (by decide)
  unfold node_title
  cases hT : n.title with
  | some s =>
      by_cases hs : s = ""
      · subst hs
        cases hD : n.dataName with
        | some s2 =>
            by_cases hs2 : s2 = ""
            · subst hs2
              simpa [pyOrS] using pyStrip_good _ hplaceholder
            · simpa [pyOrS, hs2] using pyStrip_good _ (hd s2 hD hs2)
        | none =>
            simpa [pyOrS] using pyStrip_good _ hplaceholder
      · simpa [pyOrS, hs] using pyStrip_good _ (ht s hT hs)
  | none =>
      cases hD : n.dataName with
      | some s2 =>
          by_cases hs2 : s2 = ""
          · subst hs2
            simpa [pyOrS] using pyStrip_good _ hplaceholder
          · simpa [pyOrS, hs2] using pyStrip_good _ (hd s2 hD hs2)
      | none =>
          simpa [pyOrS] using pyStrip_good _ hplaceholder

/-- C6 witness: the amended statement evaluated on the node with no
title, no name and no id, which resolves to the placeholder. -/
theorem C6_amended_witness :
    goodOpt (Node.mk none none none none false none).title ∧
    goodOpt (Node.mk none none none none false none).dataName ∧
    node_title (Node.mk none none none none false none) ≠ "" ∧
    ¬ wsOnly (node_title (Node.mk none none none none false none)) := by
  have hg : goodOpt (none : Option String) := by
    intro s h
    cases h
  have h := C6_amended (Node.mk none none none none false none) hg hg
  exact ⟨hg, hg, h.1, h.2⟩

/- ------------------------------------------------------------------ -/
/- C7                                                                  -/
/- ------------------------------------------------------------------ -/

/-- C7: `has_any_course` is true exactly when the faculty's full subtree
(root included) contains a node with raw `type == "cours"`, ignoring the
Subject/Pass classification; the main-block filter keeps, in original
order (a sublist), exactly the faculties satisfying it; and the skipped
count equals the number of faculties with no course anywhere — one per
excluded faculty. -/
theorem C7_filter :
    (∀ n : Node, has_any_course n = true ↔
      ∃ m, InSubtree m n ∧ m.ntype = some "cours") ∧
    (∀ ts : List Node,
      (facs_with_courses ts).Sublist ts ∧
      (∀ n, n ∈ facs_with_courses ts ↔ n ∈ ts ∧ has_any_course n = true) ∧
      skipped ts = (ts.filter (fun t => !(has_any_course t))).length) := by
  refine ⟨has_any_course_iff, fun ts => ⟨List.filter_sublist ts, ?_, ?_⟩⟩
  · intro n
    simp [facs_with_courses, List.mem_filter]
  · have h := length_filter_split (fun t => has_any_course t) ts
    unfold skipped facs_with_courses
    omega

/- ------------------------------------------------------------------ -/
/- C8                                                                  -/
/- ------------------------------------------------------------------ -/

/-- C8 counterexample: on the course-title list of the claim's example
subject, the specification of line 96 — `sorted(set(...), key=str.lower)`,
i.e. a permutation of the distinct titles that is nondecreasing on the
lowercased key — admits BOTH orders of the two distinct titles
`"Cours1"` and `"cours1"` that share a lowercased form: the input alone
does not determine the output.  The actual order is the Python
set-iteration order, which depends on the per-process string hash seed,
so the tie order is not one fixed deterministic order on every run, as
the claim asserts. -/
theorem C8_counterexample :
    PySortedSetOutput ["Cours1", "cours1"] ["Cours1", "cours1"] ∧
    PySortedSetOutput ["Cours1", "cours1"] ["cours1", "Cours1"] ∧
    (["Cours1", "cours1"] : List String) ≠ ["cours1", "Cours1"] := by
  have hd : (["Cours1", "cours1"] : List String).dedup = ["Cours1", "cours1"] := by decide
  have h1 : pyLower "Cours1" = "cours1" := by decide
  have h2 : pyLower "cours1" = "cours1" := by decide
  have hle : lowerLe "Cours1" "cours1" := by
    unfold lowerLe
    rw [h1, h2]
  have hle2 : lowerLe "cours1" "Cours1" := by
    unfold lowerLe
    rw [h1, h2]
  refine ⟨⟨?_, ?_⟩, ⟨?_, ?_⟩, by decide⟩
  · rw [hd]
  · simp [List.pairwise_cons, hle]
  · rw [hd]
    exact List.Perm.swap _ _ _
  · simp [List.pairwise_cons, hle2]

/-- C8 (amended): extraction is a function of the input TOGETHER WITH
the process's set-iteration order: whenever no two distinct titles of
the collected list share a lowercased form, any two outputs meeting the
`sorted(set(...), key=str.lower)` specification are equal — on such
inputs the extraction is deterministic across runs — and the executable
model satisfies that specification; only the relative order of distinct
titles with equal lowercased forms is left to the hash-seed-dependent
set-iteration order and may differ between runs. -/
theorem C8_amended (xs out₁ out₂ : List String)
    (h₁ : PySortedSetOutput xs out₁) (h₂ : PySortedSetOutput xs out₂)
    (hinj : ∀ a ∈ xs, ∀ b ∈ xs, pyLower a = pyLower b → a = b) :
    out₁ = out₂ ∧ PySortedSetOutput xs (pySortedSet xs) := by
  obtain ⟨hp₁, hs₁⟩ := h₁
  obtain ⟨hp₂, hs₂⟩ := h₂
  have hnd : (xs.dedup.map pyLower).Nodup :=
    (List.nodup_dedup xs).map_on
      (fun a ha b hb hab => hinj a (List.mem_dedup.mp ha) b (List.mem_dedup.mp hb) hab)
  have hnd₁ : (out₁.map pyLower).Nodup := ((hp₁.map pyLower).nodup_iff).mpr hnd
  have hnd₂ : (out₂.map pyLower).Nodup := ((hp₂.map pyLower).nodup_iff).mpr hnd
  have hne₁ : out₁.Pairwise (fun a b => pyLower a ≠ pyLower b) := by
    rw [List.Nodup, List.pairwise_map] at hnd₁
    exact hnd₁
  have hne₂ : out₂.Pairwise (fun a b => pyLower a ≠ pyLower b) := by
    rw [List.Nodup, List.pairwise_map] at hnd₂
    exact hnd₂
  have hlt₁ : out₁.Pairwise lowerLt :=
    (hs₁.and hne₁).imp (fun h => lt_of_le_of_ne h.1 h.2)
  have hlt₂ : out₂.Pairwise lowerLt :=
    (hs₂.and hne₂).imp (fun h => lt_of_le_of_ne h.1 h.2)
  exact ⟨List.eq_of_perm_of_sorted (hp₁.trans hp₂.symm) hlt₁ hlt₂,
    pySortedSet_spec xs⟩

/-- C8 witness: the amended statement evaluated on a two-title list with
distinct lowercased forms. -/
theorem C8_amended_witness :
    PySortedSetOutput ["b", "A"] (pySortedSet ["b", "A"]) ∧
    (∀ a ∈ (["b", "A"] : List String), ∀ b ∈ (["b", "A"] : List String),
      pyLower a = pyLower b → a = b) ∧
    pySortedSet ["b", "A"] = pySortedSet ["b", "A"] := by
  have hs := pySortedSet_spec (["b", "A"] : List String)
  have hinj : ∀ a ∈ (["b", "A"] : List String), ∀ b ∈ (["b", "A"] : List String),
      pyLower a = pyLower b → a = b := by decide
  exact ⟨hs, hinj, (C8_amended _ _ _ hs hs hinj).1⟩

/- ------------------------------------------------------------------ -/
/- C9                                                                  -/
/- ------------------------------------------------------------------ -/

/-- C9: when the Policy-B extraction found at least one subject (it only
records subjects with non-empty course lists), the faculty's rendered
sections are exactly those subjects — the `"Autres"` fallback is not
even attempted — and every course title listed anywhere in them comes
from a `"cours"`-typed node lying below a subject-classified node of the
faculty's children forest; course nodes with no subject-classified
ancestor are omitted from the summary entirely. -/
theorem C9_subjects_only (fac : Node)
    (h : collect_matieres_and_courses fac ≠ []) :
    build_pdf_fac_sections fac = collect_matieres_and_courses fac ∧
    ∀ p ∈ collect_matieres_and_courses fac, ∀ t ∈ p.2,
      ∃ m c, InForest m (ensure_list fac.children) ∧ is_matiere m ∧
        InSubtree c m ∧ c.ntype = some "cours" ∧ node_title c = t := by
  constructor
  · unfold build_pdf_fac_sections
    rw [if_neg h]
  · intro p hp t ht
    rcases mem_collectAux _ hp with ⟨n, hf, hmat, rfl⟩
    have ht2 : t ∈ coursesUnderAux [n] := mem_pySortedSet.mp ht
    rcases mem_coursesUnderAux _ ht2 with ⟨x, hx, c, hsub, hc, hct⟩
    rcases List.mem_singleton.mp hx with rfl
    exact ⟨x, c, hf, hmat, hsub, hc, hct⟩

/-- C9 witness: evaluated on a faculty with one subject. -/
theorem C9_subjects_only_witness :
    collect_matieres_and_courses exFacIdem ≠ [] ∧
    build_pdf_fac_sections exFacIdem = collect_matieres_and_courses exFacIdem := by
  have h : collect_matieres_and_courses exFacIdem ≠ [] := by
    rw [eval_collect_exFacIdem]
    decide
  exact ⟨h, (C9_subjects_only exFacIdem h).1⟩

/- ------------------------------------------------------------------ -/
/- C10                                                                 -/
/- ------------------------------------------------------------------ -/

/-- C10: `has_any_course` examines the faculty root node itself, so a
faculty whose root has `type == "cours"` is retained by the filter even
with no children, while the extraction and the fallback scan only the
root's children, so such a childless faculty yields no subject and no
course. -/
theorem C10_root_course (fac : Node) (hroot : fac.ntype = some "cours")
    (hkids : ensure_list fac.children = []) :
    has_any_course fac = true ∧
    collect_matieres_and_courses fac = [] ∧
    build_pdf_fac_sections fac = [] := by
  have h1 : has_any_course fac = true :=
    (has_any_course_iff fac).mpr ⟨fac, InSubtree.refl fac, hroot⟩
  have h2 : collect_matieres_and_courses fac = [] := by
    unfold collect_matieres_and_courses
    rw [hkids]
    simp [collectAux]
  have hkids2 : ensure_list (collectEffect fac).children = [] := by
    cases fac with
    | mk t d i ty f c =>
        cases c with
        | none => rfl
        | some l => rfl
  have h3 : build_pdf_fac_sections fac = [] := by
    unfold build_pdf_fac_sections
    rw [if_pos h2, hkids2]
    simp [coursesUnderAux, pySortedSet, List.dedup]
  exact ⟨h1, h2, h3⟩

/-- C10 witness: evaluated on the childless course-typed faculty root. -/
theorem C10_root_course_witness :
    exFacRootCourse.ntype = some "cours" ∧
    ensure_list exFacRootCourse.children = [] ∧
    has_any_course exFacRootCourse = true ∧
    collect_matieres_and_courses exFacRootCourse = [] ∧
    build_pdf_fac_sections exFacRootCourse = [] := by
  have h := C10_root_course exFacRootCourse rfl rfl
  exact ⟨rfl, rfl, h.1, h.2.1, h.2.2⟩
